import Mathlib

/-
Verification development for the factset-report-analyzer OCR extraction core.

Shallow embedding of the Python modules
  core/ocr/coordinate_matcher.py   (quarter pattern normalization, number
                                    extraction, coordinate-based matching)
  core/ocr/parser.py               (parse_quarter, parse_number,
                                    get_report_date_from_filename)
  core/ocr/bar_classifier.py       (bar region computation, per-method
                                    classification, ensemble voting)
  core/ocr/processor.py            (process_image, wide-format conversion,
                                    merge, confidence / consistency scoring)

Modelling conventions:
  * Python floats are modelled as exact rationals (ℚ); pixel values as ℕ;
    datetimes as ℤ ordinals (pd.to_datetime is order-preserving).
  * Python's `re.search` for the concrete patterns used by the source is
    implemented directly as leftmost scans over `List Char`.
  * Python's stable ascending `sorted`/`list.sort` is `List.insertionSort`
    with a reflexive total relation (identical output for a total preorder).
  * Sorting by `math.sqrt(d)` equals sorting by the radicand `d` (sqrt is
    strictly monotone), so candidate selection stores and compares the
    radicand `distSq`; the real square root appears in theorem statements.
  * `cv2`/OCR preprocessing (adaptive threshold, OTSU, closing) are external
    image-producing capabilities: the derived binary images are taken as
    inputs, exactly as `classify_bar_with_multiple_methods` receives them.
  * pandas NaN cells are modelled by a missing key in a row's cell
    association list; `str(nan)` is the string "nan".
-/

namespace Factset

set_option maxRecDepth 10000

/-! ### Character classes used by the concrete regular expressions -/

def isDig (c : Char) : Bool := '0' ≤ c && c ≤ '9'

def digVal (c : Char) : ℕ := c.toNat - 48

def digitsVal (l : List Char) : ℕ := l.foldl (fun n c => 10 * n + digVal c) 0

def isWsChar (c : Char) : Bool :=
  c = ' ' || c = '\t' || c = '\n' || c = '\r' || c = '\x0b' || c = '\x0c'

def isQChar (c : Char) : Bool := c = 'Q' || c = 'q'

def isOneToFour (c : Char) : Bool := '1' ≤ c && c ≤ '4'

def isIlChar (c : Char) : Bool := c = 'I' || c = 'i' || c = 'l' || c = 'L'

def isI1Char (c : Char) : Bool := isIlChar c || c = '1'

def isYiChar (c : Char) : Bool := c = 'y' || c = 'Y' || c = 'i' || c = 'I'

/-! ### normalize_quarter_text (coordinate_matcher.py)

`re.sub(r'^[O0](?=[1-4])', 'Q', text, flags=IGNORECASE)` rewrites a leading
O/o/0 followed by 1-4 into Q; `re.sub(r'Q([Il])(?=\d)', 'Q1', text,
flags=IGNORECASE)` rewrites every Q/q followed by I/i/l/L followed by a digit
into "Q1" (the digit is a lookahead, left in place). -/

def sub2Go : List Char → List Char
  | [] => []
  | [a] => [a]
  | a :: b :: rest =>
    if isQChar a && isIlChar b && (match rest with | c :: _ => isDig c | [] => false) then
      'Q' :: '1' :: sub2Go rest
    else
      a :: sub2Go (b :: rest)

def normalizeQuarterTextL (l : List Char) : List Char :=
  let l1 :=
    match l with
    | c0 :: c1 :: rest =>
      if (c0 = 'O' || c0 = 'o' || c0 = '0') && isOneToFour c1 then 'Q' :: c1 :: rest else l
    | _ => l
  sub2Go l1

/-! ### regex matchers for the five quarter patterns

Each `matchPnAt` attempts the pattern anchored at the head of the list;
`searchWith` scans left to right (Python `re.search` leftmost semantics).
The `cs` flag selects case-sensitive `Q` (parser.py omits IGNORECASE on
patterns 1-3; coordinate_matcher.py passes it). -/

def searchWith (f : List Char → Option α) : List Char → Option α
  | [] => f []
  | l@(_ :: rest) =>
    match f l with
    | some r => some r
    | none => searchWith f rest

def qHead (cs : Bool) (c : Char) : Bool := if cs then c = 'Q' else isQChar c

/-- Pattern `Q([1-4])'(\d{2})`. -/
def matchP1At (cs : Bool) : List Char → Option (Char × Char × Char)
  | c0 :: c1 :: c2 :: c3 :: c4 :: _ =>
    if qHead cs c0 && isOneToFour c1 && c2 = '\'' && isDig c3 && isDig c4 then
      some (c1, c3, c4)
    else none
  | _ => none

def lit20dd : List Char → Option (Char × Char)
  | a :: b :: d1 :: d2 :: _ =>
    if a = '2' && b = '0' && isDig d1 && isDig d2 then some (d1, d2) else none
  | _ => none

def wsRun20 : List Char → Option (Char × Char)
  | [] => none
  | c :: rest => if isWsChar c then wsRun20 rest else lit20dd (c :: rest)

/-- Pattern `Q([1-4])\s+20(\d{2})`: at least one whitespace then literal 20
and two digits (greedy `\s+` cannot backtrack into the literal 2). -/
def matchP2At (cs : Bool) : List Char → Option (Char × Char × Char)
  | c0 :: c1 :: c :: rest =>
    if qHead cs c0 && isOneToFour c1 && isWsChar c then
      (wsRun20 rest).map (fun p => (c1, p.1, p.2))
    else none
  | _ => none

/-- Pattern `Q([1-4])(\d{2})`. -/
def matchP3At (cs : Bool) : List Char → Option (Char × Char × Char)
  | c0 :: c1 :: c2 :: c3 :: _ =>
    if qHead cs c0 && isOneToFour c1 && isDig c2 && isDig c3 then
      some (c1, c2, c3)
    else none
  | _ => none

/-- Pattern `[0Oo]([1-4])(\d{2})` (no IGNORECASE flag; the class is literal). -/
def matchP4At : List Char → Option (Char × Char × Char)
  | c0 :: c1 :: c2 :: c3 :: _ =>
    if (c0 = '0' || c0 = 'O' || c0 = 'o') && isOneToFour c1 && isDig c2 && isDig c3 then
      some (c1, c2, c3)
    else none
  | _ => none

/-- Pattern `Q([1-4])[iIl1](\d)[yi]` with IGNORECASE. -/
def matchP5At : List Char → Option (Char × Char)
  | c0 :: c1 :: c2 :: c3 :: c4 :: _ =>
    if isQChar c0 && isOneToFour c1 && isI1Char c2 && isDig c3 && isYiChar c4 then
      some (c1, c3)
    else none
  | _ => none

/-- Year plausibility guard `14 <= int(year) <= 99 or 0 <= int(year) <= 25`
applied after patterns 3 and 4 (kept as written even though a two-digit year
always satisfies it). -/
def yearGuard (a b : Char) : Bool :=
  let y := 10 * digVal a + digVal b
  (14 ≤ y && y ≤ 99) || (y ≤ 25)

def mkQuarter (q a b : Char) : List Char := ['Q', q, '\'', a, b]

/-- Year completion for pattern 5: a single trailing digit 7/8/9 gets the
decade prefix 1, anything else the prefix 2. -/
def p5Year (d : Char) : List Char :=
  if d = '7' || d = '8' || d = '9' then ['1', d] else ['2', d]

/-- Shared pattern cascade of `extract_quarter_pattern` and `parse_quarter`:
first match wins; a pattern-3/4 match whose year fails the guard falls
through to the next pattern (re.search already committed to the leftmost
match). `cs` is true for parser.py (case-sensitive patterns 1-3). -/
def quarterCascade (cs : Bool) (n : List Char) : Option (List Char) :=
  match searchWith (matchP1At cs) n with
  | some (q, a, b) => some (mkQuarter q a b)
  | none =>
  match searchWith (matchP2At cs) n with
  | some (q, a, b) => some (mkQuarter q a b)
  | none =>
  match searchWith (matchP3At cs) n with
  | some (q, a, b) =>
    if yearGuard a b then some (mkQuarter q a b)
    else
      match searchWith matchP4At n with
      | some (q', a', b') =>
        if yearGuard a' b' then some (mkQuarter q' a' b')
        else (searchWith matchP5At n).map (fun p => 'Q' :: p.1 :: '\'' :: p5Year p.2)
      | none => (searchWith matchP5At n).map (fun p => 'Q' :: p.1 :: '\'' :: p5Year p.2)
  | none =>
  match searchWith matchP4At n with
  | some (q', a', b') =>
    if yearGuard a' b' then some (mkQuarter q' a' b')
    else (searchWith matchP5At n).map (fun p => 'Q' :: p.1 :: '\'' :: p5Year p.2)
  | none => (searchWith matchP5At n).map (fun p => 'Q' :: p.1 :: '\'' :: p5Year p.2)

/-- Embedding of `extract_quarter_pattern` (coordinate_matcher.py): normalize
then run the five patterns with IGNORECASE on patterns 1-3. -/
def extractQuarterPattern (s : String) : Option String :=
  (quarterCascade false (normalizeQuarterTextL s.data)).map String.mk

/-- Embedding of `parse_quarter` (parser.py): same cascade, but without the
normalization step and with case-sensitive patterns 1-3. -/
def parseQuarter (s : String) : Option String :=
  (quarterCascade true s.data).map String.mk

/-! ### extract_number / parse_number

`text.replace(',', '').replace('-', '')` then `re.search(r'-?\d+\.?\d*')`:
with all minus signs removed the leftmost match starts at the first digit,
takes the maximal digit run, an optional dot and the following digit run.
`float()` of such a match never raises; its value is modelled exactly in ℚ. -/

def decValue (ip fr : List Char) : ℚ :=
  (digitsVal ip : ℚ) + (digitsVal fr : ℚ) / (10 : ℚ) ^ fr.length

def numFrom (l : List Char) : ℚ :=
  match l.dropWhile isDig with
  | '.' :: r2 => decValue (l.takeWhile isDig) (r2.takeWhile isDig)
  | _ => decValue (l.takeWhile isDig) []

def findNum : List Char → Option ℚ
  | [] => none
  | c :: rest => if isDig c then some (numFrom (c :: rest)) else findNum rest

def extractNumber (s : String) : Option ℚ :=
  findNum (s.data.filter (fun c => !(c = ',' || c = '-')))

/-- Embedding of `parse_number` (parser.py); its body is character-for-
character identical to `extract_number`. -/
def parseNumber (s : String) : Option ℚ := extractNumber s

/-! ### OCR fragments and the coordinate-based matcher -/

/-- OCR fragment bounding box, as the dict `{text, left, top, width, height}`
(the `confidence` key is never read by the matcher). -/
structure Box where
  text : String
  left : ℚ
  top : ℚ
  width : ℚ
  height : ℚ
deriving DecidableEq, Repr

def Box.centerX (b : Box) : ℚ := b.left + b.width / 2

def Box.centerY (b : Box) : ℚ := b.top + b.height / 2

def Box.bottom (b : Box) : ℚ := b.top + b.height

/-- Stable ascending sort key relation used for `quarter_boxes.sort(key=lambda
x: x['left'])`. -/
def boxLeftLe (a b : Box × String) : Prop := a.1.left ≤ b.1.left

instance : DecidableRel boxLeftLe :=
  fun a b => inferInstanceAs (Decidable (a.1.left ≤ b.1.left))

instance : IsTotal (Box × String) boxLeftLe := ⟨fun a b => le_total a.1.left b.1.left⟩

instance : IsTrans (Box × String) boxLeftLe := ⟨fun _ _ _ h1 h2 => le_trans h1 h2⟩

/-- Embedding of `find_quarters_at_bottom`: fragments whose bottom edge lies
in the bottom `bottom_percent` band and whose text yields a quarter pattern,
sorted left to right. -/
def findQuartersAtBottom (ocr : List Box) (bottomPercent : ℚ) : List (Box × String) :=
  match ocr with
  | [] => []
  | b0 :: rest =>
    let maxY := rest.foldl (fun m b => max m b.bottom) b0.bottom
    let threshold := maxY - maxY * bottomPercent
    let qs := ocr.filterMap fun b =>
      if threshold ≤ b.bottom then
        (extractQuarterPattern b.text).map (fun q => (b, q))
      else none
    List.insertionSort boxLeftLe qs

/-- Number candidate as accumulated by `find_nearest_number_in_y_range`:
the fragment plus its extracted number, axis differences and the squared
weighted distance (the code stores `sqrt(10*x_diff^2 + 0.1*y_diff^2)`; the
square root is strictly monotone, so selection by `distSq` selects the same
candidate). -/
structure Candidate where
  box : Box
  number : ℚ
  xDiff : ℚ
  yDiff : ℚ
  distSq : ℚ
deriving DecidableEq, Repr

/-- Qualification filter of `find_nearest_number_in_y_range`, in source
order: not the quarter box itself (coordinate equality), no quarter pattern
in the text, a number extracts, strictly above the quarter box's center,
within `y_tolerance` and `x_tolerance`, and value below 2000. -/
def candidatesFor (qb : Box) (ocr : List Box) (yTol xTol : ℚ) : List Candidate :=
  ocr.filterMap fun b =>
    if b.left = qb.left ∧ b.top = qb.top ∧ b.width = qb.width ∧ b.height = qb.height then none
    else if (extractQuarterPattern b.text).isSome then none
    else
      match extractNumber b.text with
      | none => none
      | some n =>
        if qb.centerY ≤ b.centerY then none
        else
          let yDiff := qb.centerY - b.centerY
          if yTol < yDiff then none
          else
            let xDiff := |b.centerX - qb.centerX|
            if xTol < xDiff then none
            else if 2000 ≤ n then none
            else some ⟨b, n, xDiff, yDiff, xDiff ^ 2 * 10 + yDiff ^ 2 * (1 / 10)⟩

/-- Stable selection of the minimum-distance candidate: Python sorts the
candidate list (stable) by distance and takes element 0, i.e. the earliest
candidate with the minimal distance. -/
def minByDistSq : List Candidate → Option Candidate
  | [] => none
  | c :: cs => some (cs.foldl (fun best x => if x.distSq < best.distSq then x else best) c)

/-- Embedding of `find_nearest_number_in_y_range`. -/
def findNearestNumberInYRange (qb : Box) (ocr : List Box) (yTol xTol : ℚ) : Option Candidate :=
  minByDistSq (candidatesFor qb ocr yTol xTol)

/-- Matched quarter/number pair (`match_quarters_with_numbers` result dict);
`distSq` is the squared stored distance. -/
structure MatchedPair where
  quarter : String
  eps : ℚ
  quarterBox : Box
  numberBox : Box
  distSq : ℚ
deriving DecidableEq, Repr

/-- Embedding of `match_quarters_with_numbers`: each bottom quarter box is
paired with its nearest qualifying number, quarter boxes without one are
dropped, left-to-right order is preserved. -/
def matchQuartersWithNumbers (ocr : List Box) (bottomPercent yTol xTol : ℚ) :
    List MatchedPair :=
  (findQuartersAtBottom ocr bottomPercent).filterMap fun qbq =>
    (findNearestNumberInYRange qbq.1 ocr yTol xTol).map fun c =>
      ⟨qbq.2, c.number, qbq.1, c.box, c.distSq⟩

/-! ### bar_classifier.py

The three preprocessed binary images (adaptive Gaussian threshold, OTSU plus
3x3 closing, inverted OTSU) are produced by cv2 from the chart image; they
enter `classify_bar_with_multiple_methods` as plain pixel arrays, modelled as
row lists of ℕ pixel values. Numpy slicing `a[s:e]` clamps like Python
slices. -/

abbrev Image := List (List ℕ)

/-- Python `int()` truncation toward zero of an exact rational. -/
def pyTrunc (x : ℚ) : ℤ := Int.tdiv x.num (x.den : ℤ)

/-- Python slice index normalization for step 1: negative indices count from
the end, then both ends clamp to `[0, len]`. -/
def pySliceIdx (n i : ℤ) : ℤ := if i < 0 then max 0 (n + i) else min n i

def pySlice (l : List α) (start stop : ℤ) : List α :=
  let n : ℤ := l.length
  ((l.take (pySliceIdx n stop).toNat).drop (pySliceIdx n start).toNat)

def cropRegion (img : Image) (yTop yBot xMin xMax : ℤ) : Image :=
  (pySlice img yTop yBot).map (fun row => pySlice row xMin xMax)

def regionSize (r : Image) : ℕ := (r.map List.length).sum

def whiteCount (r : Image) : ℕ := (r.map (fun row => row.count 255)).sum

/-- Embedding of `get_bar_region_coordinates`: 30px-wide strip centred on the
midpoint of the two box centres, clipped to the image width; vertical span
from the bottom of the number box to the top of the quarter box. -/
def getBarRegionCoordinates (qb nb : Box) (imageWidth : ℤ) : ℤ × ℤ × ℤ × ℤ :=
  let xCenter := pyTrunc ((qb.centerX + nb.centerX) / 2)
  let xMin := max 0 (xCenter - 15)
  let xMax := min imageWidth (xCenter + 15)
  let yTop := pyTrunc nb.bottom
  let yBot := pyTrunc qb.top
  (xMin, xMax, yTop, yBot)

/-- Embedding of `classify_with_adaptive_threshold` (threshold 0.7): dark iff
the white-pixel ratio exceeds 0.7; an empty region is light. -/
def classifyWithAdaptiveThreshold (r : Image) : String :=
  if regionSize r = 0 then "light"
  else if (7 : ℚ) / 10 < (whiteCount r : ℚ) / (regionSize r : ℚ) then "dark" else "light"

/-- Embedding of `classify_with_morphology_closing` (threshold 0.5, inverted
sense): light iff the white ratio exceeds 0.5; an empty region is light. -/
def classifyWithMorphologyClosing (r : Image) : String :=
  if regionSize r = 0 then "light"
  else if (1 : ℚ) / 2 < (whiteCount r : ℚ) / (regionSize r : ℚ) then "light" else "dark"

/-- Embedding of `classify_with_otsu_inverted` (threshold 0.7). -/
def classifyWithOtsuInverted (r : Image) : String :=
  if regionSize r = 0 then "light"
  else if (7 : ℚ) / 10 < (whiteCount r : ℚ) / (regionSize r : ℚ) then "dark" else "light"

/-- Result dict of `classify_bar_with_multiple_methods`. -/
structure BarClassification where
  barColor : String
  confidence : String
  votesDark : ℕ
  votesLight : ℕ
  methods : List (String × String)
deriving DecidableEq, Repr

/-- Embedding of `classify_bar_with_multiple_methods`: the original image is
consulted only for its width (`original_image.shape[1]`), passed here as
`imageWidth`. If the region bounds are invalid the degenerate result is
returned without voting; otherwise the three methods vote on their crops and
the majority wins (`votes['dark'] > votes['light']`), with confidence from
the winner's vote count. -/
def classifyBarWithMultipleMethods (adaptive closing otsuInv : Image)
    (imageWidth : ℤ) (qb nb : Box) : BarClassification :=
  let r := getBarRegionCoordinates qb nb imageWidth
  let xMin := r.1
  let xMax := r.2.1
  let yTop := r.2.2.1
  let yBot := r.2.2.2
  if yBot ≤ yTop ∨ xMax ≤ xMin then ⟨"light", "low", 0, 0, []⟩
  else
    let ra := classifyWithAdaptiveThreshold (cropRegion adaptive yTop yBot xMin xMax)
    let rc := classifyWithMorphologyClosing (cropRegion closing yTop yBot xMin xMax)
    let ro := classifyWithOtsuInverted (cropRegion otsuInv yTop yBot xMin xMax)
    let results := [ra, rc, ro]
    let vd := results.count "dark"
    let vl := results.count "light"
    let final := if vl < vd then "dark" else "light"
    let winner := if vl < vd then vd else vl
    let conf := if winner = 3 then "high" else if winner = 2 then "medium" else "low"
    ⟨final, conf, vd, vl, [("adaptive", ra), ("closing", rc), ("otsu_inv", ro)]⟩

/-- Matched pair with the bar classification attached
(`classify_all_bars` with `use_multiple_methods=True`). -/
structure ClassifiedPair where
  quarter : String
  eps : ℚ
  quarterBox : Box
  numberBox : Box
  distSq : ℚ
  barColor : String
  barConfidence : String
  votesDark : ℕ
  votesLight : ℕ
deriving DecidableEq, Repr

/-- Embedding of `classify_all_bars` (multiple-methods branch): classify each
pair against the once-preprocessed images. -/
def classifyAllBars (adaptive closing otsuInv : Image) (imageWidth : ℤ)
    (pairs : List MatchedPair) : List ClassifiedPair :=
  pairs.map fun p =>
    let c := classifyBarWithMultipleMethods adaptive closing otsuInv imageWidth
      p.quarterBox p.numberBox
    ⟨p.quarter, p.eps, p.quarterBox, p.numberBox, p.distSq,
      c.barColor, c.confidence, c.votesDark, c.votesLight⟩

/-! ### get_report_date_from_filename (parser.py)

`re.search(r'(\d{8})')` takes the leftmost run of eight digits; strptime with
`%Y%m%d` validates it as a calendar date (year at least 1, month 1-12, day
within the month); on success the date is reformatted as `YYYY-MM-DD`,
otherwise the raw filename is returned. -/

def findEightDigits : List Char → Option (List Char)
  | [] => none
  | l@(_ :: rest) =>
    let t := l.take 8
    if t.length = 8 && t.all isDig then some t else findEightDigits rest

def isLeapYear (y : ℕ) : Bool := y % 4 = 0 && (y % 100 ≠ 0 || y % 400 = 0)

def daysInMonth (y m : ℕ) : ℕ :=
  if m = 2 then (if isLeapYear y then 29 else 28)
  else if m = 4 || m = 6 || m = 9 || m = 11 then 30
  else 31

def padDigits (k n : ℕ) : List Char :=
  let s := Nat.toDigits 10 n
  List.replicate (k - s.length) '0' ++ s

def getReportDateFromFilename (filename : String) : String :=
  match findEightDigits filename.data with
  | none => filename
  | some ds =>
    let y := digitsVal (ds.take 4)
    let m := digitsVal ((ds.drop 4).take 2)
    let d := digitsVal (ds.drop 6)
    if 1 ≤ y ∧ 1 ≤ m ∧ m ≤ 12 ∧ 1 ≤ d ∧ d ≤ daysInMonth y m then
      String.mk (padDigits 4 y ++ '-' :: padDigits 2 m ++ '-' :: padDigits 2 d)
    else filename

/-! ### process_image (processor.py) -/

/-- Long-form record emitted by `process_image`. `bar_color` and
`bar_confidence` are always present on the multiple-methods path, so they are
plain fields. -/
structure ExtractionRecord where
  reportDate : String
  quarter : String
  eps : ℚ
  isEstimate : Bool
  barColor : String
  barConfidence : String
deriving DecidableEq, Repr

/-- Embedding of `process_image`. OCR and the cv2 image read are external:
the OCR fragments, the three preprocessed binary images and the image width
are inputs. Empty OCR returns no records; matching uses the default
tolerances (bottom 0.3, y 1000, x 10); the classified pairs become records
with `is_estimate` set to `True` unconditionally (source comment: values
extracted from images are considered estimates). -/
def processImage (ocr : List Box) (adaptive closing otsuInv : Image)
    (imageWidth : ℤ) (filename : String) : List ExtractionRecord :=
  if ocr.isEmpty then []
  else if (classifyAllBars adaptive closing otsuInv imageWidth
      (matchQuartersWithNumbers ocr (3 / 10) 1000 10)).isEmpty then []
  else
    (classifyAllBars adaptive closing otsuInv imageWidth
        (matchQuartersWithNumbers ocr (3 / 10) 1000 10)).map fun c =>
      ⟨getReportDateFromFilename filename, c.quarter, c.eps, true, c.barColor, c.barConfidence⟩

/-! ### wide tables (processor.py)

A wide row is one `report_date` (a ℤ datetime ordinal) plus the quarter
column cells; a key missing from `cells` models a pandas NaN cell, present
keys are the string cell values (possibly empty). -/

structure WRow where
  date : ℤ
  cells : List (String × String)
deriving DecidableEq, Repr

structure WideTable where
  cols : List String
  rows : List WRow
deriving DecidableEq, Repr

/-! ### _parse_quarter_for_sort -/

def stripWs (l : List Char) : List Char :=
  ((l.dropWhile isWsChar).reverse.dropWhile isWsChar).reverse

/-- Python `int(s)` on a plain decimal literal: optional surrounding
whitespace, optional sign, at least one digit; anything else raises
(modelled as `none`). -/
def pyInt? (l : List Char) : Option ℤ :=
  match stripWs l with
  | '-' :: ds => if ds ≠ [] ∧ ds.all isDig then some (-(digitsVal ds : ℤ)) else none
  | '+' :: ds => if ds ≠ [] ∧ ds.all isDig then some (digitsVal ds : ℤ) else none
  | ds => if ds ≠ [] ∧ ds.all isDig then some (digitsVal ds : ℤ) else none

def splitOnChar (sep : Char) (l : List Char) : List (List Char) :=
  l.foldr
    (fun c acc =>
      match acc with
      | g :: gs => if c = sep then [] :: g :: gs else (c :: g) :: gs
      | [] => [[c]])
    [[]]

/-- Embedding of `_parse_quarter_for_sort`: `Q1'14 -> (2014, 1)`; the no-
apostrophe branch reads `quarter[1]` and `quarter[2:4]`; any parse failure
yields `(0, 0)`. -/
def parseQuarterForSort (q : String) : ℤ × ℤ :=
  let l := q.data
  if l.contains '\'' then
    match splitOnChar '\'' l with
    | [qp, yp] =>
      match pyInt? (qp.drop 1), pyInt? yp with
      | some qn, some yn => (2000 + yn, qn)
      | _, _ => (0, 0)
    | _ => (0, 0)
  else
    match l with
    | _ :: c1 :: rest =>
      match pyInt? [c1], pyInt? (rest.take 2) with
      | some qn, some yn => (2000 + yn, qn)
      | _, _ => (0, 0)
    | _ => (0, 0)

/-- Lexicographic order on `(year, quarter)` keys, as Python tuple
comparison. -/
def zLexLe (a b : ℤ × ℤ) : Prop := a.1 < b.1 ∨ (a.1 = b.1 ∧ a.2 ≤ b.2)

instance : DecidableRel zLexLe :=
  fun a b => inferInstanceAs (Decidable (a.1 < b.1 ∨ (a.1 = b.1 ∧ a.2 ≤ b.2)))

/-- Column order of `sorted(cols, key=_parse_quarter_for_sort)`. -/
def colLe (a b : String) : Prop := zLexLe (parseQuarterForSort a) (parseQuarterForSort b)

instance : DecidableRel colLe :=
  fun a b => inferInstanceAs (Decidable (zLexLe (parseQuarterForSort a) (parseQuarterForSort b)))

instance : IsTotal String colLe := by
  refine ⟨fun a b => ?_⟩
  unfold colLe zLexLe
  rcases lt_trichotomy (parseQuarterForSort a).1 (parseQuarterForSort b).1 with h | h | h
  · exact Or.inl (Or.inl h)
  · rcases le_total (parseQuarterForSort a).2 (parseQuarterForSort b).2 with h2 | h2
    · exact Or.inl (Or.inr ⟨h, h2⟩)
    · exact Or.inr (Or.inr ⟨h.symm, h2⟩)
  · exact Or.inr (Or.inl h)

instance : IsTrans String colLe := by
  refine ⟨fun a b c h1 h2 => ?_⟩
  unfold colLe zLexLe at *
  rcases h1 with h1 | ⟨e1, l1⟩
  · rcases h2 with h2 | ⟨e2, l2⟩
    · exact Or.inl (h1.trans h2)
    · exact Or.inl (e2 ▸ h1)
  · rcases h2 with h2 | ⟨e2, l2⟩
    · exact Or.inl (e1 ▸ h2)
    · exact Or.inr ⟨e1.trans e2, l1.trans l2⟩

/-- Row order of `sort_values('Report_Date')`. -/
def rowLe (a b : WRow) : Prop := a.date ≤ b.date

instance : DecidableRel rowLe :=
  fun a b => inferInstanceAs (Decidable (a.date ≤ b.date))

instance : IsTotal WRow rowLe := ⟨fun a b => le_total a.date b.date⟩

instance : IsTrans WRow rowLe := ⟨fun _ _ _ h1 h2 => le_trans h1 h2⟩

/-- Lexicographic string order used by the pandas pivot on string labels. -/
def strLe (a b : String) : Prop := ¬ b < a

instance : DecidableRel strLe :=
  fun a b => inferInstanceAs (Decidable (¬ b < a))

instance : IsTotal String strLe := by
  refine ⟨fun a b => ?_⟩
  by_cases h : a < b
  · exact Or.inl (asymm h)
  · exact Or.inr h

instance : IsTrans String strLe := by
  refine ⟨fun a b c h1 h2 => ?_⟩
  intro hlt
  rcases lt_trichotomy a b with h | rfl | h
  · exact h2 (lt_trans hlt h)
  · exact h2 hlt
  · exact h1 h

/-! ### _merge_data -/

/-- pandas `drop_duplicates(subset=['Report_Date'], keep='last')`: a row is
kept iff no later row has the same date, preserving order of kept rows. -/
def dedupLastRows : List WRow → List WRow
  | [] => []
  | r :: rest =>
    if rest.any (fun r2 => r2.date == r.date) then dedupLastRows rest
    else r :: dedupLastRows rest

/-- Embedding of `_merge_data`: empty-side shortcuts return the other table
unchanged; otherwise concatenate (pandas aligns columns to the union, first
frame's order first), deduplicate by date keeping the last occurrence, sort
rows by date, and re-sort the quarter columns by `(year, quarter)`. -/
def mergeData (current new : WideTable) : WideTable :=
  if current.rows.isEmpty then new
  else if new.rows.isEmpty then current
  else
    let cols := current.cols ++ new.cols.filter (fun c => !current.cols.contains c)
    { cols := List.insertionSort colLe cols,
      rows := List.insertionSort rowLe (dedupLastRows (current.rows ++ new.rows)) }

/-! ### convert_to_wide_format -/

/-- Cell string of a record: the formatted eps, starred when the bar is
light. Python's `str(float)` rendering is abstracted as the formatter
`fmt`. -/
def epsStr (fmt : ℚ → String) (r : ExtractionRecord) : String :=
  if r.barColor = "light" then fmt r.eps ++ "*" else fmt r.eps

/-- Embedding of `convert_to_wide_format`: pivot by
`(report_date, quarter) -> eps_str` with first-wins aggregation, all cells
materialized (`fillna('')`), quarter columns sorted by `(year, quarter)`
(stable, applied over the pivot's lexicographic column order), and dates
mapped to datetimes by the external order-preserving `dateKey`. -/
def convertToWideFormat (dateKey : String → ℤ) (fmt : ℚ → String)
    (records : List ExtractionRecord) : WideTable :=
  if records.isEmpty then ⟨[], []⟩
  else
    let cols := List.insertionSort colLe
      (List.insertionSort strLe (records.map (·.quarter)).dedup)
    let dates := List.insertionSort strLe (records.map (·.reportDate)).dedup
    let rows := dates.map fun d =>
      { date := dateKey d,
        cells := cols.map fun q =>
          (q, match records.find? (fun r => r.reportDate == d && r.quarter == q) with
              | some r => epsStr fmt r
              | none => "") }
    ⟨cols, rows⟩

/-- Per-image accumulation step of the `process_directory` loop: images that
yield no records leave the running table untouched (`continue`); otherwise
the records are pivoted and merged into it. -/
def processDirStep (dateKey : String → ℤ) (fmt : ℚ → String)
    (current : WideTable) (records : List ExtractionRecord) : WideTable :=
  if records.isEmpty then current
  else mergeData current (convertToWideFormat dateKey fmt records)

/-! ### calculate_consistency_with_previous_week_wide -/

/-- Python `max(iterable)` / `min(iterable)` over dates (`previous_dates.max()`
and `sorted(unique)[0]`). -/
def pyMaxZ : List ℤ → Option ℤ
  | [] => none
  | x :: xs => some (xs.foldl max x)

def pyMinZ : List ℤ → Option ℤ
  | [] => none
  | x :: xs => some (xs.foldl min x)

/-- Value of Python `float(s)`: a numeric value or the float NaN (the parse
of the string `"nan"`, which is how a pandas NaN cell prints). -/
inductive PyVal where
  | num (q : ℚ)
  | nan
deriving DecidableEq, Repr

/-- Python `float(s)` on the strings reaching the consistency comparison:
plain decimal literals with optional sign and fraction, or `"nan"`; anything
else raises ValueError (`none`). -/
def pyFloatCore (l : List Char) : Option PyVal :=
  let ip := l.takeWhile isDig
  let rest := l.dropWhile isDig
  match rest with
  | [] => if ip.isEmpty then none else some (.num (digitsVal ip : ℚ))
  | '.' :: fr =>
    if fr.all isDig ∧ (ip ≠ [] ∨ fr ≠ []) then
      some (.num ((digitsVal ip : ℚ) + (digitsVal fr : ℚ) / (10 : ℚ) ^ fr.length))
    else none
  | _ => none

def pyFloat? (s : String) : Option PyVal :=
  match s.data with
  | ['n', 'a', 'n'] => some .nan
  | '-' :: rest => (pyFloatCore rest).map (fun v => match v with
      | .num q => .num (-q)
      | .nan => .nan)
  | '+' :: rest => pyFloatCore rest
  | l => pyFloatCore l

/-- Cell access `str(current_row.get(quarter, ''))` for a quarter known to be
a column: a present key gives the stored string, a missing key is a pandas
NaN whose `str` is `"nan"`. -/
def cellStr (r : WRow) (q : String) : String :=
  match r.cells.lookup q with
  | some s => s
  | none => "nan"

def containsStar (s : String) : Bool := s.data.contains '*'

def removeStars (s : String) : String := String.mk (s.data.filter (fun c => c ≠ '*'))

/-- Comparison `abs(curr-prev) / max(abs(prev), 0.01) <= 0.2` on float
values; any NaN operand propagates and the comparison is False. -/
def valMatch (c p : PyVal) : Bool :=
  match c, p with
  | .num cv, .num pv => decide (|cv - pv| / max |pv| (1 / 100) ≤ 1 / 5)
  | _, _ => false

/-- Quarter-comparison loop of `calculate_consistency_with_previous_week_wide`
accumulating `(matches, total)`: skip quarters that are not columns, cells
that are empty or starred on either side, and cells whose float conversion
raises; otherwise count the comparison and the match. -/
def consistencyLoop (cols : List String) (cr pr : WRow) :
    List String → ℕ × ℕ → ℕ × ℕ
  | [], acc => acc
  | q :: qs, (m, t) =>
    if !cols.contains q then consistencyLoop cols cr pr qs (m, t)
    else
      let cv := cellStr cr q
      let pv := cellStr pr q
      if cv = "" || containsStar cv || pv = "" || containsStar pv then
        consistencyLoop cols cr pr qs (m, t)
      else
        match pyFloat? (removeStars cv), pyFloat? (removeStars pv) with
        | some c, some p =>
          consistencyLoop cols cr pr qs (if valMatch c p then m + 1 else m, t + 1)
        | _, _ => consistencyLoop cols cr pr qs (m, t)

/-- Quarters of the current image's records with a dark bar
(`set(current_data[current_data['bar_color']=='dark']['quarter'])`); the set
is modelled as a deduplicated list, and the loop's result does not depend on
its order. -/
structure LongRec where
  quarter : String
  barColor : String
deriving DecidableEq, Repr

def actualQuarters (currentData : List LongRec) : List String :=
  ((currentData.filter (fun x => x.barColor == "dark")).map (·.quarter)).dedup

/-- Embedding of `calculate_consistency_with_previous_week_wide`: previous
date is the maximal date strictly before the current one (none: 0); current
and previous rows are looked up (a missing row: 0); no dark quarters: 0;
otherwise `matches / total * 100`, or 0 when nothing was compared. -/
def consistencyWithPrevWeekWide (currentDate : ℤ) (currentData : List LongRec)
    (table : WideTable) : ℚ :=
  match pyMaxZ ((table.rows.filter (fun r => r.date < currentDate)).map (·.date)) with
  | none => 0
  | some prevDate =>
    match table.rows.find? (fun r => r.date == currentDate),
          table.rows.find? (fun r => r.date == prevDate) with
    | some cr, some pr =>
      let actualQ := actualQuarters currentData
      if actualQ.isEmpty then 0
      else
        let mt := consistencyLoop table.cols cr pr actualQ (0, 0)
        if 0 < mt.2 then (mt.1 : ℚ) / (mt.2 : ℚ) * 100 else 0
    | _, _ => 0

/-- Chronologically first report date of the table
(`sorted(df['Report_Date'].unique())[0]`). -/
def firstDateOf (table : WideTable) : Option ℤ := pyMinZ (table.rows.map (·.date))

/-- Consistency-score dispatch of `calculate_confidence_dataframe`: the
chronologically first date scores a fixed 100, every other date is compared
with the previous week. -/
def consistencyScoreFor (currentDate : ℤ) (currentData : List LongRec)
    (table : WideTable) : ℚ :=
  match firstDateOf table with
  | some fd =>
    if currentDate = fd then 100
    else consistencyWithPrevWeekWide currentDate currentData table
  | none => consistencyWithPrevWeekWide currentDate currentData table

/-! ### specification-side consistency score (for the refinement claim)

These definitions follow the specification's words: the first report date
scores 100; otherwise the comparison is restricted to quarters whose current
record has a dark bar and which hold plain (non-empty, unstarred, numeric)
values in both the current row and the immediately preceding row; a quarter
matches when `|curr - prev| / max(|prev|, 0.01) <= 0.2`; the score is
`100 * matches / total`, or 0 when no quarter is compared. -/

def holdsPlainValue (r : WRow) (q : String) : Option ℚ :=
  match r.cells.lookup q with
  | none => none
  | some s =>
    if s = "" ∨ containsStar s then none
    else
      match pyFloat? s with
      | some (.num v) => some v
      | _ => none

def specCompared (cols : List String) (cr pr : WRow) (q : String) : Bool :=
  cols.contains q && (holdsPlainValue cr q).isSome && (holdsPlainValue pr q).isSome

def specMatched (cols : List String) (cr pr : WRow) (q : String) : Bool :=
  specCompared cols cr pr q &&
    match holdsPlainValue cr q, holdsPlainValue pr q with
    | some cv, some pv => decide (|cv - pv| / max |pv| (1 / 100) ≤ 1 / 5)
    | _, _ => false

/-- Consistency score as the specification describes it. -/
def specConsistencyScore (currentDate : ℤ) (currentData : List LongRec)
    (table : WideTable) : ℚ :=
  if firstDateOf table = some currentDate then 100
  else
    match table.rows.find? (fun r => r.date == currentDate),
          (pyMaxZ ((table.rows.filter (fun r => r.date < currentDate)).map (·.date))).bind
            (fun pd => table.rows.find? (fun r => r.date == pd)) with
    | some cr, some pr =>
      let qs := actualQuarters currentData
      let t := qs.countP (specCompared table.cols cr pr)
      let m := qs.countP (specMatched table.cols cr pr)
      if t = 0 then 0 else 100 * (m : ℚ) / (t : ℚ)
    | _, _ => 0

/-- Canonical quarter label `Q{1-4}'{YY}` built from its quarter digit and
two year digits. -/
def canonQuarter (q : Fin 4) (d1 d2 : Fin 10) : String :=
  String.mk ['Q', Char.ofNat (49 + q.val), '\'', Char.ofNat (48 + d1.val), Char.ofNat (48 + d2.val)]

/-! ## Helper lemmas -/

theorem decValue_nonneg (ip fr : List Char) : 0 ≤ decValue ip fr := by
  unfold decValue
  positivity

theorem numFrom_eq_decValue (l : List Char) : ∃ ip fr, numFrom l = decValue ip fr := by
  unfold numFrom
  split
  · exact ⟨_, _, rfl⟩
  · exact ⟨_, _, rfl⟩

theorem findNum_nonneg (l : List Char) (q : ℚ) (h : findNum l = some q) : 0 ≤ q := by
  induction l with
  | nil => simp [findNum] at h
  | cons c rest ih =>
    rw [findNum] at h
    by_cases hc : isDig c = true
    · simp only [hc, if_true, Option.some.injEq] at h
      obtain ⟨ip, fr, he⟩ := numFrom_eq_decValue (c :: rest)
      rw [← h, he]
      exact decValue_nonneg ip fr
    · simp only [hc, if_false] at h
      exact ih h

theorem extractNumber_nonneg (s : String) (q : ℚ) (h : extractNumber s = some q) : 0 ≤ q :=
  findNum_nonneg _ q h

theorem minByDistSq_mem (l : List Candidate) (c : Candidate)
    (h : minByDistSq l = some c) : c ∈ l := by
  match l with
  | [] => simp [minByDistSq] at h
  | c0 :: cs =>
    rw [minByDistSq, Option.some.injEq] at h
    subst h
    induction cs generalizing c0 with
    | nil => simp
    | cons x xs ih =>
      simp only [List.foldl_cons]
      by_cases hx : x.distSq < c0.distSq
      · simp only [hx, if_true]
        have := ih x
        simp only [List.mem_cons] at this ⊢
        tauto
      · simp only [hx, if_false]
        have := ih c0
        simp only [List.mem_cons] at this ⊢
        tauto

theorem mem_candidatesFor (qb : Box) (ocr : List Box) (yTol xTol : ℚ) (c : Candidate)
    (h : c ∈ candidatesFor qb ocr yTol xTol) :
    0 ≤ c.xDiff ∧ c.xDiff ≤ xTol ∧ 0 < c.yDiff ∧ c.yDiff ≤ yTol ∧
      c.distSq = c.xDiff ^ 2 * 10 + c.yDiff ^ 2 * (1 / 10) ∧
      ∃ b ∈ ocr, extractNumber b.text = some c.number := by
  unfold candidatesFor at h
  rw [List.mem_filterMap] at h
  obtain ⟨b, hb, heq⟩ := h
  by_cases hsame : b.left = qb.left ∧ b.top = qb.top ∧ b.width = qb.width ∧ b.height = qb.height
  · rw [if_pos hsame] at heq; exact absurd heq (by simp)
  rw [if_neg hsame] at heq
  by_cases hq : (extractQuarterPattern b.text).isSome = true
  · rw [if_pos hq] at heq; exact absurd heq (by simp)
  rw [if_neg hq] at heq
  rcases hnum : extractNumber b.text with _ | n
  · rw [hnum] at heq; exact absurd heq (by simp)
  rw [hnum] at heq
  simp only at heq
  by_cases hy : qb.centerY ≤ b.centerY
  · rw [if_pos hy] at heq; exact absurd heq (by simp)
  rw [if_neg hy] at heq
  by_cases hyt : yTol < qb.centerY - b.centerY
  · rw [if_pos hyt] at heq; exact absurd heq (by simp)
  rw [if_neg hyt] at heq
  by_cases hxt : xTol < |b.centerX - qb.centerX|
  · rw [if_pos hxt] at heq; exact absurd heq (by simp)
  rw [if_neg hxt] at heq
  by_cases h2k : (2000 : ℚ) ≤ n
  · rw [if_pos h2k] at heq; exact absurd heq (by simp)
  rw [if_neg h2k] at heq
  rw [Option.some.injEq] at heq
  subst heq
  push_neg at hy hyt hxt
  exact ⟨abs_nonneg _, hxt, sub_pos.mpr hy, hyt, rfl, ⟨b, hb, hnum⟩⟩

/-! ## Claims -/

/-- C7: quarter normalization maps each of the five example inputs to its
specified canonical label, both for `extract_quarter_pattern`
(coordinate_matcher.py) and for `parse_quarter` (parser.py). -/
theorem quarter_normalization_examples :
    extractQuarterPattern "Q1'17" = some "Q1'17" ∧
    extractQuarterPattern "Q2 2018" = some "Q2'18" ∧
    extractQuarterPattern "Q114" = some "Q1'14" ∧
    extractQuarterPattern "0114" = some "Q1'14" ∧
    extractQuarterPattern "Q1i7y" = some "Q1'17" ∧
    parseQuarter "Q1'17" = some "Q1'17" ∧
    parseQuarter "Q2 2018" = some "Q2'18" ∧
    parseQuarter "Q114" = some "Q1'14" ∧
    parseQuarter "0114" = some "Q1'14" ∧
    parseQuarter "Q1i7y" = some "Q1'17" := by
  decide

/-- C8: quarter normalization is idempotent on canonical inputs — every
string of the form `Q{1-4}'{YY}` is returned unchanged by
`extract_quarter_pattern`, so normalizing its own output equals normalizing
the original text. -/
theorem quarter_normalization_idempotent :
    ∀ (q : Fin 4) (d1 d2 : Fin 10),
      extractQuarterPattern (canonQuarter q d1 d2) = some (canonQuarter q d1 d2) ∧
      (extractQuarterPattern (canonQuarter q d1 d2)).bind extractQuarterPattern =
        extractQuarterPattern (canonQuarter q d1 d2) := by
  decide

/-- C9: an image whose OCR step yields zero fragments contributes zero
extraction records, and the per-image accumulation step leaves the running
wide table exactly as it was. -/
theorem empty_ocr_leaves_table_unchanged
    (dateKey : String → ℤ) (fmt : ℚ → String) (current : WideTable)
    (adaptive closing otsuInv : Image) (imageWidth : ℤ) (filename : String) :
    processImage [] adaptive closing otsuInv imageWidth filename = [] ∧
    processDirStep dateKey fmt current
      (processImage [] adaptive closing otsuInv imageWidth filename) = current := by
  constructor
  · rfl
  · rfl

/-- C10: `extract_number` strips minus signs before taking the numeric
substring, so it returns either nothing or a non-negative value (the text
"-1.5" yields 1.5), and consequently every eps carried by a matched pair is
non-negative. -/
theorem extract_number_nonneg :
    (∀ (s : String) (q : ℚ), extractNumber s = some q → 0 ≤ q) ∧
    (∀ (ocr : List Box) (bottomPercent yTol xTol : ℚ)
       (p : MatchedPair), p ∈ matchQuartersWithNumbers ocr bottomPercent yTol xTol →
         0 ≤ p.eps) ∧
    extractNumber "-1.5" = some (3 / 2) := by
  refine ⟨extractNumber_nonneg, ?_, by with_unfolding_all decide⟩
  intro ocr bottomPercent yTol xTol p hp
  unfold matchQuartersWithNumbers at hp
  rw [List.mem_filterMap] at hp
  obtain ⟨qbq, _, heq⟩ := hp
  rw [Option.map_eq_some'] at heq
  obtain ⟨cand, hfind, hpair⟩ := heq
  have hmem : cand ∈ candidatesFor qbq.1 ocr yTol xTol := minByDistSq_mem _ _ hfind
  obtain ⟨_, _, _, _, _, b, _, hb⟩ := mem_candidatesFor _ _ _ _ _ hmem
  have : p.eps = cand.number := by rw [← hpair]
  rw [this]
  exact extractNumber_nonneg _ _ hb

/-- C10 witness: the theorem applied at the concrete input "-1.5". -/
theorem extract_number_nonneg_witness : (0 : ℚ) ≤ 3 / 2 :=
  extract_number_nonneg.1 "-1.5" (3 / 2) (by with_unfolding_all decide)

unseal Rat.add Rat.mul Rat.inv Rat.sub in
/-- C1 counterexample: under the default tolerances the quarter box at
(0,1000) sees two qualifying candidates, one with `x_diff = 0, y_diff = 600`
(squared distance 36000) and one with `x_diff = 1, y_diff = 100` (squared
distance 1010): the candidate whose `x_diff` is larger by exactly 1 but whose
`y_diff` is smaller by 500 has the *smaller* distance and is the one
selected, so the claimed horizontal dominance fails. -/
theorem matcher_horizontal_dominance_cx :
    (candidatesFor ⟨"Q1'17", 0, 1000, 10, 10⟩
        [⟨"Q1'17", 0, 1000, 10, 10⟩, ⟨"1.0", 0, 400, 10, 10⟩, ⟨"2.0", 1, 900, 10, 10⟩]
        1000 10).map (fun c => (c.xDiff, c.yDiff, c.distSq)) =
      [(0, 600, 36000), (1, 100, 1010)] ∧
    (findNearestNumberInYRange ⟨"Q1'17", 0, 1000, 10, 10⟩
        [⟨"Q1'17", 0, 1000, 10, 10⟩, ⟨"1.0", 0, 400, 10, 10⟩, ⟨"2.0", 1, 900, 10, 10⟩]
        1000 10).map (fun c => (c.xDiff, c.number)) = some (1, 2) ∧
    ¬ ((36000 : ℚ) < 1010) := by
  decide

/-- C1 amended: under the default tolerances (`y_tolerance = 1000`,
`x_tolerance = 10`), of two qualifying candidates where one's `x_diff` is
larger by exactly 1 pixel and its `y_diff` smaller by 500 pixels, it is the
candidate with the *smaller y_diff* (larger `x_diff`) that always has the
strictly smaller distance `sqrt(10·x_diff² + 0.1·y_diff²)`, and it is
selected whenever the two are the only candidates. -/
theorem matcher_horizontal_dominance_amended
    (qb : Box) (ocr : List Box) (cA cB : Candidate)
    (hA : cA ∈ candidatesFor qb ocr 1000 10)
    (hB : cB ∈ candidatesFor qb ocr 1000 10)
    (hx : cB.xDiff = cA.xDiff + 1)
    (hy : cB.yDiff = cA.yDiff - 500) :
    cB.distSq < cA.distSq ∧
    Real.sqrt (cB.distSq : ℝ) < Real.sqrt (cA.distSq : ℝ) ∧
    (candidatesFor qb ocr 1000 10 = [cA, cB] →
      findNearestNumberInYRange qb ocr 1000 10 = some cB) := by
  obtain ⟨hxA0, hxA, hyA0, hyA, hdA, -⟩ := mem_candidatesFor _ _ _ _ _ hA
  obtain ⟨hxB0, hxB, hyB0, hyB, hdB, -⟩ := mem_candidatesFor _ _ _ _ _ hB
  have hyA500 : 500 < cA.yDiff := by
    have := hyB0
    rw [hy] at this
    linarith
  have hxA9 : cA.xDiff ≤ 9 := by
    have := hxB
    rw [hx] at this
    linarith
  have hlt : cB.distSq < cA.distSq := by
    rw [hdA, hdB, hx, hy]
    nlinarith [sq_nonneg cA.xDiff, sq_nonneg cA.yDiff]
  refine ⟨hlt, ?_, ?_⟩
  · have hB0 : (0 : ℚ) ≤ cB.distSq := by
      rw [hdB]
      positivity
    apply Real.sqrt_lt_sqrt
    · exact_mod_cast hB0
    · exact_mod_cast hlt
  · intro hcands
    unfold findNearestNumberInYRange
    rw [hcands]
    simp [minByDistSq, hlt]

unseal Rat.add Rat.mul Rat.inv Rat.sub in
/-- C1 witness: the amended theorem applied to the concrete two-candidate
scene of the counterexample (x_diffs 0 and 1, y_diffs 600 and 100). -/
theorem matcher_horizontal_dominance_witness : (1010 : ℚ) < 36000 :=
  (matcher_horizontal_dominance_amended
    ⟨"Q1'17", 0, 1000, 10, 10⟩
    [⟨"Q1'17", 0, 1000, 10, 10⟩, ⟨"1.0", 0, 400, 10, 10⟩, ⟨"2.0", 1, 900, 10, 10⟩]
    ⟨⟨"1.0", 0, 400, 10, 10⟩, 1, 0, 600, 36000⟩
    ⟨⟨"2.0", 1, 900, 10, 10⟩, 2, 1, 100, 1010⟩
    (by decide) (by decide) (by decide) (by decide)).1

unseal Rat.add Rat.mul Rat.inv Rat.sub in
/-- C2 counterexample: a concrete image whose single matched bar is
classified dark still yields a record with `is_estimate = true`
(`process_image` hard-codes the flag), refuting that dark-bar records carry
`is_estimate = false`. -/
theorem is_estimate_cx :
    (processImage
        [⟨"Q1'17", 0, 30, 10, 5⟩, ⟨"1.5", 0, 10, 10, 5⟩]
        (List.replicate 20 (List.replicate 20 255))
        (List.replicate 20 (List.replicate 20 0))
        (List.replicate 20 (List.replicate 20 255))
        20 "20250101.png").map (fun r => (r.barColor, r.isEstimate)) =
      [("dark", true)] := by
  decide

/-- C2 amended: every extraction record emitted by `process_image` carries
`is_estimate = true`, independent of `bar_color`; the estimate marker `*` in
the wide table is driven directly by `bar_color == "light"`, not by this
flag. -/
theorem is_estimate_always_true
    (ocr : List Box) (adaptive closing otsuInv : Image) (imageWidth : ℤ)
    (filename : String) (r : ExtractionRecord)
    (hr : r ∈ processImage ocr adaptive closing otsuInv imageWidth filename) :
    r.isEstimate = true := by
  rw [processImage] at hr
  split_ifs at hr with h1 h2
  · exact absurd hr (by simp)
  · exact absurd hr (by simp)
  · simp only [List.mem_map] at hr
    obtain ⟨c, -, rfl⟩ := hr
    rfl

unseal Rat.add Rat.mul Rat.inv Rat.sub in
/-- C2 witness: the amended theorem applied to the concrete dark-bar record
produced in the counterexample scene. -/
theorem is_estimate_always_true_witness :
    (ExtractionRecord.mk "2025-01-01" "Q1'17" (3 / 2) true "dark" "high").isEstimate = true :=
  is_estimate_always_true
    [⟨"Q1'17", 0, 30, 10, 5⟩, ⟨"1.5", 0, 10, 10, 5⟩]
    (List.replicate 20 (List.replicate 20 255))
    (List.replicate 20 (List.replicate 20 0))
    (List.replicate 20 (List.replicate 20 255))
    20 "20250101.png"
    (ExtractionRecord.mk "2025-01-01" "Q1'17" (3 / 2) true "dark" "high")
    (by decide)

unseal Rat.add Rat.mul Rat.inv Rat.sub in
/-- C3 counterexample: two bottom fragments both reading `Q1'17` each pair
with the number above them, so `match_quarters_with_numbers` returns two
pairs carrying the same quarter string. -/
theorem one_pair_per_quarter_cx :
    (matchQuartersWithNumbers
        [⟨"Q1'17", 0, 1000, 10, 10⟩, ⟨"Q1'17", 20, 1000, 10, 10⟩, ⟨"1.5", 10, 500, 10, 10⟩]
        (3 / 10) 1000 10).map (fun p => p.quarter) = ["Q1'17", "Q1'17"] ∧
    ¬ ((matchQuartersWithNumbers
        [⟨"Q1'17", 0, 1000, 10, 10⟩, ⟨"Q1'17", 20, 1000, 10, 10⟩, ⟨"1.5", 10, 500, 10, 10⟩]
        (3 / 10) 1000 10).map (fun p => p.quarter)).Nodup := by
  constructor
  · decide
  · decide

theorem matchQuarters_quarters_sublist (ocr : List Box) (bottomPercent yTol xTol : ℚ) :
    ((matchQuartersWithNumbers ocr bottomPercent yTol xTol).map (fun p => p.quarter)).Sublist
      ((findQuartersAtBottom ocr bottomPercent).map (fun x => x.2)) := by
  unfold matchQuartersWithNumbers
  generalize findQuartersAtBottom ocr bottomPercent = l
  induction l with
  | nil => simp
  | cons x t ih =>
    rw [List.filterMap_cons]
    rcases hfind : findNearestNumberInYRange x.1 ocr yTol xTol with _ | c
    · exact ih.cons x.2
    · exact ih.cons₂ x.2

/-- C3 amended: `match_quarters_with_numbers` emits at most one pair per
quarter *box* (its quarter strings form a sublist of the bottom quarter
boxes' labels), so the returned quarter strings are pairwise distinct
whenever the bottom quarter boxes carry pairwise distinct labels; duplicate
labels arise exactly when two bottom fragments normalize to the same
quarter. -/
theorem one_pair_per_quarter_amended (ocr : List Box) (bottomPercent yTol xTol : ℚ)
    (h : ((findQuartersAtBottom ocr bottomPercent).map (fun x => x.2)).Nodup) :
    ((matchQuartersWithNumbers ocr bottomPercent yTol xTol).map (fun p => p.quarter)).Nodup :=
  (matchQuarters_quarters_sublist ocr bottomPercent yTol xTol).nodup h

unseal Rat.add Rat.mul Rat.inv Rat.sub in
/-- C3 witness: the amended theorem applied to a scene whose bottom quarter
labels are distinct. -/
theorem one_pair_per_quarter_witness :
    ((matchQuartersWithNumbers
        [⟨"Q1'17", 0, 1000, 10, 10⟩, ⟨"Q2'17", 20, 1000, 10, 10⟩, ⟨"1.5", 10, 500, 10, 10⟩]
        (3 / 10) 1000 10).map (fun p => p.quarter)).Nodup :=
  one_pair_per_quarter_amended
    [⟨"Q1'17", 0, 1000, 10, 10⟩, ⟨"Q2'17", 20, 1000, 10, 10⟩, ⟨"1.5", 10, 500, 10, 10⟩]
    (3 / 10) 1000 10 (by decide)

/-- Validity guard of the computed crop region: the bar classifier's
degenerate branch fires exactly when this fails. -/
def regionValid (qb nb : Box) (imageWidth : ℤ) : Prop :=
  (getBarRegionCoordinates qb nb imageWidth).2.2.1 <
      (getBarRegionCoordinates qb nb imageWidth).2.2.2 ∧
    (getBarRegionCoordinates qb nb imageWidth).1 < (getBarRegionCoordinates qb nb imageWidth).2.1

instance (qb nb : Box) (imageWidth : ℤ) : Decidable (regionValid qb nb imageWidth) :=
  inferInstanceAs (Decidable (_ ∧ _))

theorem classifyWithAdaptiveThreshold_range (r : Image) :
    classifyWithAdaptiveThreshold r = "dark" ∨ classifyWithAdaptiveThreshold r = "light" := by
  unfold classifyWithAdaptiveThreshold
  split_ifs <;> simp

theorem classifyWithMorphologyClosing_range (r : Image) :
    classifyWithMorphologyClosing r = "dark" ∨ classifyWithMorphologyClosing r = "light" := by
  unfold classifyWithMorphologyClosing
  split_ifs <;> simp

theorem classifyWithOtsuInverted_range (r : Image) :
    classifyWithOtsuInverted r = "dark" ∨ classifyWithOtsuInverted r = "light" := by
  unfold classifyWithOtsuInverted
  split_ifs <;> simp

unseal Rat.add Rat.mul Rat.inv Rat.sub in
/-- C4 counterexample: with a quarter box above the number box the crop
bounds are invalid, the degenerate branch returns votes `{dark: 0,
light: 0}`, and the vote sum is 0, not 3 — refuting the invariant for the
invalid-region case it explicitly includes. -/
theorem three_votes_cx :
    (classifyBarWithMultipleMethods [] [] [] 20 ⟨"", 0, 5, 10, 5⟩ ⟨"", 0, 10, 10, 5⟩).votesDark +
        (classifyBarWithMultipleMethods [] [] [] 20 ⟨"", 0, 5, 10, 5⟩ ⟨"", 0, 10, 10, 5⟩).votesLight
      = 0 ∧
    (classifyBarWithMultipleMethods [] [] [] 20 ⟨"", 0, 5, 10, 5⟩ ⟨"", 0, 10, 10, 5⟩).votesDark +
        (classifyBarWithMultipleMethods [] [] [] 20 ⟨"", 0, 5, 10, 5⟩ ⟨"", 0, 10, 10, 5⟩).votesLight
      ≠ 3 := by
  constructor
  · decide
  · decide

/-- C4 amended: the three methods always vote — `votes.dark + votes.light
= 3` — whenever the computed crop region is valid (positive extent on both
axes, which includes crops that clamp to empty pixel regions, where all
three methods vote light); when the region bounds are invalid the classifier
instead returns the degenerate `{bar_color: "light", confidence: "low",
votes: {dark: 0, light: 0}}` without voting. -/
theorem three_votes_amended (adaptive closing otsuInv : Image) (imageWidth : ℤ)
    (qb nb : Box) :
    (regionValid qb nb imageWidth →
      (classifyBarWithMultipleMethods adaptive closing otsuInv imageWidth qb nb).votesDark +
        (classifyBarWithMultipleMethods adaptive closing otsuInv imageWidth qb nb).votesLight
        = 3) ∧
    (¬ regionValid qb nb imageWidth →
      classifyBarWithMultipleMethods adaptive closing otsuInv imageWidth qb nb =
        ⟨"light", "low", 0, 0, []⟩) := by
  unfold regionValid
  unfold classifyBarWithMultipleMethods
  rcases hr : getBarRegionCoordinates qb nb imageWidth with ⟨xMin, xMax, yTop, yBot⟩
  simp only
  by_cases hg : yBot ≤ yTop ∨ xMax ≤ xMin
  · rw [if_pos hg]
    constructor
    · intro hv
      exfalso
      omega
    · intro _
      rfl
  · rw [if_neg hg]
    constructor
    · intro _
      rcases classifyWithAdaptiveThreshold_range (cropRegion adaptive yTop yBot xMin xMax) with
        ha | ha <;>
      rcases classifyWithMorphologyClosing_range (cropRegion closing yTop yBot xMin xMax) with
        hc | hc <;>
      rcases classifyWithOtsuInverted_range (cropRegion otsuInv yTop yBot xMin xMax) with
        ho | ho <;>
      simp [ha, hc, ho]
    · intro hv
      exfalso
      push_neg at hg
      exact hv ⟨hg.1, hg.2⟩

unseal Rat.add Rat.mul Rat.inv Rat.sub in
/-- C4 witness: the amended theorem applied to a valid region on concrete
20x20 binary images (the configuration that classifies dark with high
confidence). -/
theorem three_votes_witness :
    (classifyBarWithMultipleMethods
        (List.replicate 20 (List.replicate 20 255))
        (List.replicate 20 (List.replicate 20 0))
        (List.replicate 20 (List.replicate 20 255))
        20 ⟨"", 0, 30, 10, 5⟩ ⟨"", 0, 10, 10, 5⟩).votesDark +
      (classifyBarWithMultipleMethods
        (List.replicate 20 (List.replicate 20 255))
        (List.replicate 20 (List.replicate 20 0))
        (List.replicate 20 (List.replicate 20 255))
        20 ⟨"", 0, 30, 10, 5⟩ ⟨"", 0, 10, 10, 5⟩).votesLight = 3 :=
  (three_votes_amended
    (List.replicate 20 (List.replicate 20 255))
    (List.replicate 20 (List.replicate 20 0))
    (List.replicate 20 (List.replicate 20 255))
    20 ⟨"", 0, 30, 10, 5⟩ ⟨"", 0, 10, 10, 5⟩).1 (by decide)

theorem dedupLastRows_sublist (l : List WRow) : (dedupLastRows l).Sublist l := by
  induction l with
  | nil => simp [dedupLastRows]
  | cons r rest ih =>
    rw [dedupLastRows]
    split_ifs
    · exact ih.cons r
    · exact ih.cons₂ r

theorem dedupLastRows_mem_dates (l : List WRow) (d : ℤ) :
    d ∈ (dedupLastRows l).map (·.date) ↔ d ∈ l.map (·.date) := by
  induction l with
  | nil => simp [dedupLastRows]
  | cons r rest ih =>
    rw [dedupLastRows]
    split_ifs with hany
    · rw [ih]
      simp only [List.map_cons, List.mem_cons]
      constructor
      · exact Or.inr
      · rintro (he | hm)
        · rw [List.any_eq_true] at hany
          obtain ⟨r2, hr2, he2⟩ := hany
          rw [beq_iff_eq] at he2
          rw [List.mem_map]
          exact ⟨r2, hr2, by rw [he2, ← he]⟩
        · exact hm
    · simp only [List.map_cons, List.mem_cons, ih]

theorem dedupLastRows_dates_nodup (l : List WRow) :
    ((dedupLastRows l).map (·.date)).Nodup := by
  induction l with
  | nil => simp [dedupLastRows]
  | cons r rest ih =>
    rw [dedupLastRows]
    split_ifs with hany
    · exact ih
    · rw [List.map_cons]
      refine List.Nodup.cons ?_ ih
      intro hmem
      rw [dedupLastRows_mem_dates] at hmem
      rw [List.mem_map] at hmem
      obtain ⟨r2, hr2, he2⟩ := hmem
      exact hany (List.any_eq_true.mpr ⟨r2, hr2, beq_iff_eq.mpr he2⟩)

theorem dedupLastRows_append_right (l₁ l₂ : List WRow) (r : WRow)
    (h : r ∈ dedupLastRows (l₁ ++ l₂)) (h2 : ∃ r2 ∈ l₂, r2.date = r.date) :
    r ∈ l₂ := by
  induction l₁ with
  | nil =>
    simpa using (dedupLastRows_sublist l₂).mem h
  | cons x t ih =>
    rw [List.cons_append, dedupLastRows] at h
    split_ifs at h with hany
    · exact ih h
    · rw [List.mem_cons] at h
      rcases h with rfl | h
      · exfalso
        obtain ⟨r2, hr2, he2⟩ := h2
        exact hany (List.any_eq_true.mpr
          ⟨r2, List.mem_append.mpr (Or.inr hr2), beq_iff_eq.mpr he2⟩)
      · exact ih h

/-- C5: merging new wide rows into the existing table yields exactly one row
per report date (the dates are the union of both inputs, without
duplicates); a date present in the new batch keeps the new row (last-write
wins); rows come out sorted ascending by date and quarter columns sorted
ascending by `(year, quarter)` — all under the invariants that both inputs
are themselves deduplicated and sorted, as every table built by the pipeline
is. -/
theorem merge_data_correct (current new : WideTable)
    (hc1 : (current.rows.map (·.date)).Nodup)
    (hc2 : List.Sorted rowLe current.rows)
    (hc3 : List.Sorted colLe current.cols)
    (hn1 : (new.rows.map (·.date)).Nodup)
    (hn2 : List.Sorted rowLe new.rows)
    (hn3 : List.Sorted colLe new.cols) :
    ((mergeData current new).rows.map (·.date)).Nodup ∧
    (∀ d : ℤ, d ∈ (mergeData current new).rows.map (·.date) ↔
      d ∈ current.rows.map (·.date) ∨ d ∈ new.rows.map (·.date)) ∧
    (∀ r ∈ (mergeData current new).rows, r.date ∈ new.rows.map (·.date) → r ∈ new.rows) ∧
    List.Sorted rowLe (mergeData current new).rows ∧
    List.Sorted colLe (mergeData current new).cols := by
  unfold mergeData
  by_cases he1 : current.rows.isEmpty
  · rw [if_pos he1]
    rw [List.isEmpty_iff] at he1
    refine ⟨hn1, ?_, fun r hr _ => hr, hn2, hn3⟩
    intro d
    rw [he1]
    simp
  · rw [if_neg he1]
    by_cases he2 : new.rows.isEmpty
    · rw [if_pos he2]
      rw [List.isEmpty_iff] at he2
      refine ⟨hc1, ?_, ?_, hc2, hc3⟩
      · intro d
        rw [he2]
        simp
      · intro r _ hd
        rw [he2] at hd
        simp at hd
    · rw [if_neg he2]
      have hperm : List.Perm
          (List.insertionSort rowLe (dedupLastRows (current.rows ++ new.rows)))
          (dedupLastRows (current.rows ++ new.rows)) :=
        List.perm_insertionSort rowLe _
      refine ⟨?_, ?_, ?_, ?_, ?_⟩
      · exact (List.Perm.nodup_iff (hperm.map (·.date))).mpr (dedupLastRows_dates_nodup _)
      · intro d
        rw [(hperm.map (·.date)).mem_iff, dedupLastRows_mem_dates]
        simp [List.mem_append]
      · intro r hr hd
        rw [hperm.mem_iff] at hr
        rw [List.mem_map] at hd
        obtain ⟨r2, hr2, he2'⟩ := hd
        exact dedupLastRows_append_right _ _ _ hr ⟨r2, hr2, he2'⟩
      · exact List.sorted_insertionSort rowLe _
      · exact List.sorted_insertionSort colLe _

unseal Rat.add Rat.mul Rat.inv Rat.sub in
/-- C5 witness: the merge theorem applied to concrete two-row tables sharing
the date 3 (the no-duplicate-dates conjunct at that input). -/
theorem merge_data_correct_witness :
    (((mergeData
        ⟨["Q1'14"], [⟨1, [("Q1'14", "1.0")]⟩, ⟨3, [("Q1'14", "2.0")]⟩]⟩
        ⟨["Q1'14", "Q2'14"],
          [⟨2, [("Q1'14", "1.5"), ("Q2'14", "3.0*")]⟩,
           ⟨3, [("Q1'14", "9.0"), ("Q2'14", "4.0")]⟩]⟩).rows).map (·.date)).Nodup :=
  (merge_data_correct
    ⟨["Q1'14"], [⟨1, [("Q1'14", "1.0")]⟩, ⟨3, [("Q1'14", "2.0")]⟩]⟩
    ⟨["Q1'14", "Q2'14"],
      [⟨2, [("Q1'14", "1.5"), ("Q2'14", "3.0*")]⟩,
       ⟨3, [("Q1'14", "9.0"), ("Q2'14", "4.0")]⟩]⟩
    (by decide) (by decide) (by decide) (by decide) (by decide) (by decide)).1

/-- Cell of a row that is materialized as a string (no pandas NaN) and is
not the string rendering of a float NaN. -/
def cellOk (r : WRow) (q : String) : Bool :=
  match r.cells.lookup q with
  | some s => pyFloat? s != some PyVal.nan
  | none => false

/-- Well-formed row for the consistency comparison: every column holds an
actual string cell that does not parse to NaN. Tables built by
`convert_to_wide_format` (`fillna('')`) satisfy this. -/
def wellFormedRow (cols : List String) (r : WRow) : Prop :=
  ∀ q ∈ cols, cellOk r q = true

instance (cols : List String) (r : WRow) : Decidable (wellFormedRow cols r) :=
  List.decidableBAll _ cols

theorem cellOk_elim (r : WRow) (q : String) (h : cellOk r q = true) :
    ∃ s, r.cells.lookup q = some s ∧ pyFloat? s ≠ some PyVal.nan := by
  unfold cellOk at h
  rcases hs : r.cells.lookup q with _ | s
  · rw [hs] at h
    simp at h
  · rw [hs] at h
    refine ⟨s, rfl, ?_⟩
    simpa using h

theorem removeStars_eq_self (s : String) (h : containsStar s = false) :
    removeStars s = s := by
  unfold containsStar at h
  unfold removeStars
  cases s with
  | mk l =>
    congr 1
    apply List.filter_eq_self.mpr
    intro c hc
    simp only [decide_eq_true_eq]
    intro hc'
    subst hc'
    have : '*' ∈ l := hc
    simp only [List.contains, List.elem_eq_mem, decide_eq_false_iff_not] at h
    exact h this

theorem consistencyLoop_eq_countP (cols : List String) (cr pr : WRow)
    (hcr : wellFormedRow cols cr) (hpr : wellFormedRow cols pr) :
    ∀ (qs : List String) (m t : ℕ),
      consistencyLoop cols cr pr qs (m, t) =
        (m + qs.countP (specMatched cols cr pr), t + qs.countP (specCompared cols cr pr)) := by
  intro qs
  induction qs with
  | nil => intro m t; simp [consistencyLoop]
  | cons q qs ih =>
    intro m t
    rw [consistencyLoop]
    by_cases hq : cols.contains q
    · have hqm : q ∈ cols := List.elem_iff.mp hq
      rw [if_neg (by simp [hqm])]
      obtain ⟨s, hs, hnan⟩ := cellOk_elim cr q (hcr q hqm)
      obtain ⟨s', hs', hnan'⟩ := cellOk_elim pr q (hpr q hqm)
      have hcv : cellStr cr q = s := by rw [cellStr, hs]
      have hpv : cellStr pr q = s' := by rw [cellStr, hs']
      rw [hcv, hpv]
      by_cases hskip : (s = "" || containsStar s || s' = "" || containsStar s') = true
      · rw [if_pos hskip, ih]
        have hnone : holdsPlainValue cr q = none ∨ holdsPlainValue pr q = none := by
          simp only [Bool.or_eq_true, decide_eq_true_eq] at hskip
          rcases hskip with ((h1 | h1) | h1) | h1
          · left; simp only [holdsPlainValue, hs]; rw [if_pos (Or.inl h1)]
          · left; simp only [holdsPlainValue, hs]; rw [if_pos (Or.inr h1)]
          · right; simp only [holdsPlainValue, hs']; rw [if_pos (Or.inl h1)]
          · right; simp only [holdsPlainValue, hs']; rw [if_pos (Or.inr h1)]
        have hcomp : specCompared cols cr pr q = false := by
          rcases hnone with h | h <;> simp [specCompared, h]
        have hmat : specMatched cols cr pr q = false := by
          rw [specMatched, hcomp]
          simp
        rw [List.countP_cons, List.countP_cons, hcomp, hmat]
        simp
      · rw [if_neg hskip]
        simp only [Bool.or_eq_true, decide_eq_true_eq, not_or, Bool.not_eq_true] at hskip
        obtain ⟨⟨⟨hne, hst⟩, hne'⟩, hst'⟩ := hskip
        rw [removeStars_eq_self s hst, removeStars_eq_self s' hst']
        have hcond : ¬ (s = "" ∨ containsStar s = true) := by simp [hne, hst]
        have hcond' : ¬ (s' = "" ∨ containsStar s' = true) := by simp [hne', hst']
        have hholds : holdsPlainValue cr q =
            (match pyFloat? s with
             | some (.num v) => some v
             | _ => none) := by
          simp only [holdsPlainValue, hs]
          rw [if_neg hcond]
        have hholds' : holdsPlainValue pr q =
            (match pyFloat? s' with
             | some (.num v) => some v
             | _ => none) := by
          simp only [holdsPlainValue, hs']
          rw [if_neg hcond']
        rcases hf : pyFloat? s with _ | v
        · rw [ih]
          have hcomp : specCompared cols cr pr q = false := by
            rw [specCompared, hholds, hf]
            simp
          have hmat : specMatched cols cr pr q = false := by
            rw [specMatched, hcomp]
            simp
          rw [List.countP_cons, List.countP_cons, hcomp, hmat]
          simp
        · rcases v with x | _
          · rcases hf' : pyFloat? s' with _ | v'
            · rw [ih]
              have hcomp : specCompared cols cr pr q = false := by
                rw [specCompared, hholds', hf']
                simp
              have hmat : specMatched cols cr pr q = false := by
                rw [specMatched, hcomp]
                simp
              rw [List.countP_cons, List.countP_cons, hcomp, hmat]
              simp
            · rcases v' with y | _
              · show consistencyLoop cols cr pr qs
                    (if valMatch (PyVal.num x) (PyVal.num y) then m + 1 else m, t + 1) =
                  (m + List.countP (specMatched cols cr pr) (q :: qs),
                   t + List.countP (specCompared cols cr pr) (q :: qs))
                rw [ih]
                have hcomp : specCompared cols cr pr q = true := by
                  rw [specCompared, hholds, hholds', hf, hf']
                  simp [hqm]
                have hmat : specMatched cols cr pr q =
                    decide (|x - y| / max |y| (1 / 100) ≤ 1 / 5) := by
                  rw [specMatched, hcomp, hholds, hholds', hf, hf']
                  simp
                rw [List.countP_cons, List.countP_cons, hcomp, hmat]
                simp only [valMatch]
                split_ifs with hm <;> simp only [Prod.mk.injEq] <;> constructor <;> omega
              · exact absurd hf' hnan'
          · exact absurd hf hnan
    · have hqm : q ∉ cols := by simpa using hq
      rw [if_pos (by simp [hqm])]
      rw [ih]
      have hcomp : specCompared cols cr pr q = false := by
        rw [specCompared]
        simp [hqm]
      have hmat : specMatched cols cr pr q = false := by
        rw [specMatched, hcomp]
        simp
      rw [List.countP_cons, List.countP_cons, hcomp, hmat]
      simp

unseal Rat.add Rat.mul Rat.inv Rat.sub in
/-- C6 counterexample: on a merged table containing a NaN cell — here the
previous row lacks the later-introduced column `Q2'14`, exactly as
`pd.concat` in `_merge_data` leaves it — the code parses `str(nan)` with
`float()` and counts the quarter as compared but never matching, scoring
50, while the claimed formula skips quarters that do not hold a value in
both rows and gives 100. -/
theorem consistency_score_nan_cx :
    consistencyScoreFor 2 [⟨"Q1'14", "dark"⟩, ⟨"Q2'14", "dark"⟩]
        ⟨["Q1'14", "Q2'14"],
          [⟨1, [("Q1'14", "1.0")]⟩,
           ⟨2, [("Q1'14", "1.05"), ("Q2'14", "1.0")]⟩]⟩ = 50 ∧
    specConsistencyScore 2 [⟨"Q1'14", "dark"⟩, ⟨"Q2'14", "dark"⟩]
        ⟨["Q1'14", "Q2'14"],
          [⟨1, [("Q1'14", "1.0")]⟩,
           ⟨2, [("Q1'14", "1.05"), ("Q2'14", "1.0")]⟩]⟩ = 100 ∧
    consistencyScoreFor 2 [⟨"Q1'14", "dark"⟩, ⟨"Q2'14", "dark"⟩]
        ⟨["Q1'14", "Q2'14"],
          [⟨1, [("Q1'14", "1.0")]⟩,
           ⟨2, [("Q1'14", "1.05"), ("Q2'14", "1.0")]⟩]⟩ ≠
      specConsistencyScore 2 [⟨"Q1'14", "dark"⟩, ⟨"Q2'14", "dark"⟩]
        ⟨["Q1'14", "Q2'14"],
          [⟨1, [("Q1'14", "1.0")]⟩,
           ⟨2, [("Q1'14", "1.05"), ("Q2'14", "1.0")]⟩]⟩ := by
  refine ⟨by decide, by decide, by decide⟩

/-- C6 amended: restricted to merged tables whose rows hold no NaN cell
(every quarter column materialized as a string, as `convert_to_wide_format`
with `fillna('')` produces), the consistency score computed by the code
equals the score the specification describes — 100 for the chronologically
first report date in the table; otherwise 100·matches/total over exactly the
quarters whose current record has a dark bar and which hold plain
non-estimate numeric values in both the current and the immediately
preceding row, a quarter matching when
`|curr - prev| / max(|prev|, 0.01) <= 0.2`, and 0 when no quarter is
compared. On tables with NaN cells the code instead counts such a quarter as
compared but never matching, because `float(str(nan))` succeeds. -/
theorem consistency_score_matches_spec (table : WideTable)
    (currentData : List LongRec) (d : ℤ)
    (hwf : ∀ r ∈ table.rows, wellFormedRow table.cols r) :
    consistencyScoreFor d currentData table = specConsistencyScore d currentData table := by
  have hcore : consistencyWithPrevWeekWide d currentData table =
      (match table.rows.find? (fun r => r.date == d),
             (pyMaxZ ((table.rows.filter (fun r => r.date < d)).map (·.date))).bind
               (fun pd => table.rows.find? (fun r => r.date == pd)) with
       | some cr, some pr =>
         if (actualQuarters currentData).countP (specCompared table.cols cr pr) = 0 then (0 : ℚ)
         else 100 * ((actualQuarters currentData).countP (specMatched table.cols cr pr) : ℚ) /
           ((actualQuarters currentData).countP (specCompared table.cols cr pr) : ℚ)
       | _, _ => 0) := by
    rw [consistencyWithPrevWeekWide]
    cases hmax : pyMaxZ ((table.rows.filter (fun r => r.date < d)).map (·.date)) with
    | none =>
      cases hcr : table.rows.find? (fun r => r.date == d) <;> rfl
    | some pd =>
      cases hcr : table.rows.find? (fun r => r.date == d) with
      | none =>
        cases hpr : table.rows.find? (fun r => r.date == pd) <;> simp [hpr]
      | some cr =>
        cases hpr : table.rows.find? (fun r => r.date == pd) with
        | none => simp [hpr]
        | some pr =>
          have hcrm : cr ∈ table.rows := List.mem_of_find?_eq_some hcr
          have hprm : pr ∈ table.rows := List.mem_of_find?_eq_some hpr
          simp only [Option.some_bind, hpr]
          rw [consistencyLoop_eq_countP table.cols cr pr (hwf cr hcrm) (hwf pr hprm)]
          by_cases hemp : (actualQuarters currentData).isEmpty
          · rw [if_pos hemp]
            rw [List.isEmpty_iff] at hemp
            rw [hemp]
            simp
          · rw [if_neg hemp]
            simp only [Nat.zero_add]
            rcases Nat.eq_zero_or_pos
                ((actualQuarters currentData).countP (specCompared table.cols cr pr)) with hz | hz
            · rw [hz]
              simp
            · rw [if_pos hz, if_neg (Nat.pos_iff_ne_zero.mp hz)]
              field_simp
              ring
  rw [consistencyScoreFor, specConsistencyScore]
  cases hfd : firstDateOf table with
  | none =>
    rw [if_neg (by simp)]
    exact hcore
  | some fd =>
    show (if d = fd then (100 : ℚ) else consistencyWithPrevWeekWide d currentData table) = _
    by_cases hdf : d = fd
    · rw [if_pos hdf, if_pos (by rw [hdf])]
    · rw [if_neg hdf, if_neg (by simp only [Option.some.injEq]; exact fun h => hdf h.symm)]
      exact hcore

unseal Rat.add Rat.mul Rat.inv Rat.sub in
/-- C6 witness: the amended theorem applied to a concrete fully-materialized
two-row merged table (current date 2, previous date 1, one dark quarter that
matches). -/
theorem consistency_score_matches_spec_witness :
    consistencyScoreFor 2 [⟨"Q1'14", "dark"⟩, ⟨"Q2'14", "light"⟩]
        ⟨["Q1'14", "Q2'14"],
          [⟨1, [("Q1'14", "1.0"), ("Q2'14", "5.0*")]⟩,
           ⟨2, [("Q1'14", "1.1"), ("Q2'14", "9.9")]⟩]⟩ =
      specConsistencyScore 2 [⟨"Q1'14", "dark"⟩, ⟨"Q2'14", "light"⟩]
        ⟨["Q1'14", "Q2'14"],
          [⟨1, [("Q1'14", "1.0"), ("Q2'14", "5.0*")]⟩,
           ⟨2, [("Q1'14", "1.1"), ("Q2'14", "9.9")]⟩]⟩ :=
  consistency_score_matches_spec
    ⟨["Q1'14", "Q2'14"],
      [⟨1, [("Q1'14", "1.0"), ("Q2'14", "5.0*")]⟩,
       ⟨2, [("Q1'14", "1.1"), ("Q2'14", "9.9")]⟩]⟩
    [⟨"Q1'14", "dark"⟩, ⟨"Q2'14", "light"⟩] 2
    (by decide)

end Factset
